import Mathlib

/-!
# Verification of `SimpleVector` (src/simple-vector/simple_vector.h)

A shallow embedding of the C++ dynamic-array container `SimpleVector<Type>`.
The buffer owned through `ArrayPtr<Type>` is modelled as a `List α` whose
length is the allocated capacity; an iterator into the buffer is modelled as
its offset from `begin()` (`data_.Get()`).  `std::copy`, `std::copy_backward`
and `std::fill` over raw pointers are modelled by the explicit index-passing
functions `copyN`, `copyBackwardN` and `fillN` below; a write through a
pointer outside the allocated block (undefined behaviour in C++) is modelled
as leaving the allocation unchanged (`setSlot` drops the write when the index
is negative, and `List.set` drops a write past the end).  Since the embedding
is value-level, the copy and move variants of an operation differ only where
their source code differs in values written, not in the move-iterator
wrappers (a moved-from element is never observable: the source object's size
is zeroed or the old buffer discarded).
-/

namespace SpecSimpleVector

/-- A single slot write through a possibly out-of-range pointer: `dst[i] = v`.
A negative index (a pointer before the allocation) leaves the block
unchanged, as does an index past the end. -/
def setSlot {α : Type} (dst : List α) (i : Int) (v : α) : List α :=
  if 0 ≤ i then dst.set i.toNat v else dst

/-- `std::copy(src + s, src + s + n, dst + d)`: forward element-wise copy of
`n` slots from `src` starting at `s` into `dst` starting at `d`. -/
def copyN {α : Type} [Inhabited α] (src : List α) (s : Nat) (dst : List α) (d : Nat) :
    Nat → List α
  | 0 => dst
  | n + 1 => copyN src (s + 1) (dst.set d (src.getD s default)) (d + 1) n

/-- `std::copy_backward(src + (e - n), src + e, dst-block + dLast)`: copies
`n` slots ending at source index `e` so that the last copied slot lands just
before offset `dLast` of the destination block, proceeding backwards.
`dLast` is an `Int` because the source passes a destination that can reach
before the start of the block. -/
def copyBackwardN {α : Type} [Inhabited α] (src : List α) (e : Nat) (dst : List α)
    (dLast : Int) : Nat → List α
  | 0 => dst
  | n + 1 =>
      copyBackwardN src (e - 1) (setSlot dst (dLast - 1) (src.getD (e - 1) default))
        (dLast - 1) n

/-- `std::fill(dst + s, dst + s + n, v)`. -/
def fillN {α : Type} (dst : List α) (s : Nat) (v : α) : Nat → List α
  | 0 => dst
  | n + 1 => fillN (dst.set s v) (s + 1) v n

/-- The container `SimpleVector<Type>`: `data` is the buffer owned by the
`ArrayPtr` member `data_` (one list entry per allocated slot), `size` is
`size_` and `capacity` is `capacity_`. -/
structure SimpleVector (α : Type) where
  data : List α
  size : Nat
  capacity : Nat
deriving Repr, DecidableEq

namespace SimpleVector

variable {α : Type} [Inhabited α]

/-- `capacity_multiplier`, the growth factor constant (source line 314). -/
def capacity_multiplier : Nat := 2

/-- Private helper `Realloc(new_capacity)` (source lines 316–324): a zero
request is bumped to 1, a fresh `ArrayPtr` of that many slots is allocated
and swapped with `data_`, `capacity_` is updated, and the old buffer is
returned.  The fresh slots of the allocation made by `ArrayPtr<Type>`
(declared in `array_ptr.h`, the Buffer Owner of the spec) are modelled as
default-valued. -/
def Realloc (v : SimpleVector α) (new_capacity : Nat) : List α × SimpleVector α :=
  let nc := if new_capacity = 0 then 1 else new_capacity
  (v.data, { data := List.replicate nc default, size := v.size, capacity := nc })

/-- `GetSize` (source lines 227–229). -/
def GetSize (v : SimpleVector α) : Nat := v.size

/-- `GetCapacity` (source lines 232–234). -/
def GetCapacity (v : SimpleVector α) : Nat := v.capacity

/-- `IsEmpty` (source lines 237–239). -/
def IsEmpty (v : SimpleVector α) : Bool := v.size = 0

/-- Unchecked `operator[]` (source lines 242–249): reads slot `index` with no
bounds check. -/
def getOp (v : SimpleVector α) (index : Nat) : α := v.data.getD index default

/-- The live elements `[begin(), end())` = the first `size_` slots. -/
def elems (v : SimpleVector α) : List α := v.data.take v.size

/-- Well-formedness of the representation: the buffer holds exactly
`capacity_` slots and `size_ ≤ capacity_`. -/
def WF (v : SimpleVector α) : Prop := v.data.length = v.capacity ∧ v.size ≤ v.capacity

/-- Default constructor (source line 31): `size = capacity = 0`, no block. -/
def mkDefault : SimpleVector α := { data := [], size := 0, capacity := 0 }

/-- `SimpleVector(size_t size)` (source lines 34–36): allocates `size` slots
and fills them with `Type{}`. -/
def mkSized (size : Nat) : SimpleVector α :=
  { data := fillN (List.replicate size default) 0 default size
    size := size, capacity := size }

/-- `SimpleVector(const ReserveProxyObj&)` (source lines 38–40): allocates
`proxy` slots, `size = 0`. -/
def mkReserved (n : Nat) : SimpleVector α :=
  { data := List.replicate n default, size := 0, capacity := n }

/-- `SimpleVector(size_t size, const Type& value)` (source lines 43–45). -/
def mkFilled (size : Nat) (value : α) : SimpleVector α :=
  { data := fillN (List.replicate size default) 0 value size
    size := size, capacity := size }

/-- `SimpleVector(std::initializer_list<Type>)` (source lines 48–51). -/
def mkOfList (init : List α) : SimpleVector α :=
  { data := copyN init 0 (List.replicate init.length default) 0 init.length
    size := init.length, capacity := init.length }

/-- Copy constructor (source lines 54–56): allocates `other.capacity_` slots
and copies the first `other.size_` of them. -/
def copyCtor (other : SimpleVector α) : SimpleVector α :=
  { data := copyN other.data 0 (List.replicate other.capacity default) 0 other.size
    size := other.size, capacity := other.capacity }

/-- Move constructor (source lines 75–78): steals the `ArrayPtr` and
exchanges `size_`/`capacity_` with 0.  Returns (destination, what the source
becomes); the moved-from `ArrayPtr` holds no block (modelled as `[]`, per the
Buffer Owner contract that a moved-from owner is zero-capacity). -/
def moveCtor (other : SimpleVector α) : SimpleVector α × SimpleVector α :=
  ({ data := other.data, size := other.size, capacity := other.capacity },
   { data := [], size := 0, capacity := 0 })

/-- Copy `operator=` (source lines 59–72).  The pointer-identity guard
`this != &rhs` is modelled by the explicit `isSelf` flag; when it is set the
body is skipped.  Otherwise: if `size_ > rhs.size_ || capacity_ >= rhs.capacity_`
the existing buffer is reused (copy `rhs.size_` elements in, set `size_`);
else `Realloc(rhs.capacity_)` replaces the buffer, then the copy. -/
def assignOp (dst rhs : SimpleVector α) (isSelf : Bool) : SimpleVector α :=
  if isSelf then dst
  else if dst.size > rhs.size ∨ dst.capacity ≥ rhs.capacity then
    { dst with data := copyN rhs.data 0 dst.data 0 rhs.size, size := rhs.size }
  else
    let (_, dst') := dst.Realloc rhs.capacity
    { dst' with data := copyN rhs.data 0 dst'.data 0 rhs.size, size := rhs.size }

/-- Move `operator=` (source lines 81–94), same shape as the copy assignment
but the elements are moved out of `rhs` one by one and `rhs.size_` is
exchanged with 0; `rhs` keeps its own buffer and `capacity_`.  Returns
(destination, what the source becomes). -/
def moveAssignOp (dst rhs : SimpleVector α) (isSelf : Bool) :
    SimpleVector α × SimpleVector α :=
  if isSelf then (dst, rhs)
  else if dst.size > rhs.size ∨ dst.capacity ≥ rhs.capacity then
    ({ dst with data := copyN rhs.data 0 dst.data 0 rhs.size, size := rhs.size },
     { rhs with size := 0 })
  else
    let (_, dst') := dst.Realloc rhs.capacity
    ({ dst' with data := copyN rhs.data 0 dst'.data 0 rhs.size, size := rhs.size },
     { rhs with size := 0 })

/-- `PushBack(const Type&)` (source lines 98–110): in place when
`size_ < capacity_`, else `Realloc(2 * capacity_)` (old buffer returned as
`tmp`), copy the old elements back in, then write at `size_`. -/
def PushBack (v : SimpleVector α) (item : α) : SimpleVector α :=
  if v.size < v.capacity then
    { v with data := v.data.set v.size item, size := v.size + 1 }
  else
    let (tmp, v') := v.Realloc (capacity_multiplier * v.capacity)
    let d := copyN tmp 0 v'.data 0 v.size
    { v' with data := d.set v.size item, size := v.size + 1 }

/-- `PushBack(Type&&)` (source lines 114–125): identical to the copy variant
except the old elements and `item` are moved rather than copied. -/
def PushBackMove (v : SimpleVector α) (item : α) : SimpleVector α :=
  if v.size < v.capacity then
    { v with data := v.data.set v.size item, size := v.size + 1 }
  else
    let (tmp, v') := v.Realloc (capacity_multiplier * v.capacity)
    let d := copyN tmp 0 v'.data 0 v.size
    { v' with data := d.set v.size item, size := v.size + 1 }

/-- `Insert(ConstIterator pos, const Type& value)` (source lines 131–148);
`dist = pos - data_.Get()`.  In place: `copy_backward(data_+dist, data_+size_,
data_+size_+1)` then write at `dist`.  Growth path: `Realloc(2*capacity_)`,
`copy(tmp, tmp+dist, data_)`, then — as written in the source —
`copy_backward(tmp+dist, tmp+size_, data_.Get() + 1)` (destination offset 1,
not `size_ + 1`), write `value` at `dist`.  Returns (vector, offset of the
returned iterator). -/
def Insert (v : SimpleVector α) (dist : Nat) (value : α) : SimpleVector α × Nat :=
  if v.size < v.capacity then
    let d := copyBackwardN v.data v.size v.data ((v.size : Int) + 1) (v.size - dist)
    ({ v with data := d.set dist value, size := v.size + 1 }, dist)
  else
    let (tmp, v') := v.Realloc (capacity_multiplier * v.capacity)
    let d1 := copyN tmp 0 v'.data 0 dist
    let d2 := copyBackwardN tmp v.size d1 (1 : Int) (v.size - dist)
    ({ v' with data := d2.set dist value, size := v.size + 1 }, dist)

/-- `Insert(ConstIterator pos, Type&& value)` (source lines 154–171): like the
copy variant but the growth-path `copy_backward` destination is
`data_.Get() + size_ + 1`. -/
def InsertMove (v : SimpleVector α) (dist : Nat) (value : α) : SimpleVector α × Nat :=
  if v.size < v.capacity then
    let d := copyBackwardN v.data v.size v.data ((v.size : Int) + 1) (v.size - dist)
    ({ v with data := d.set dist value, size := v.size + 1 }, dist)
  else
    let (tmp, v') := v.Realloc (capacity_multiplier * v.capacity)
    let d1 := copyN tmp 0 v'.data 0 dist
    let d2 := copyBackwardN tmp v.size d1 ((v.size : Int) + 1) (v.size - dist)
    ({ v' with data := d2.set dist value, size := v.size + 1 }, dist)

/-- `PopBack` (source lines 174–178). -/
def PopBack (v : SimpleVector α) : SimpleVector α :=
  if v.size > 0 then { v with size := v.size - 1 } else v

/-- `Erase(ConstIterator pos)` (source lines 181–189); `dist = pos - begin()`.
Non-empty: `copy(data_+dist+1, data_+size_, data_+dist)`, decrement `size_`,
return `begin() + dist`; empty: return `begin()`.  Result is (vector, offset
of the returned iterator). -/
def Erase (v : SimpleVector α) (dist : Nat) : SimpleVector α × Nat :=
  if v.size > 0 then
    let d := copyN v.data (dist + 1) v.data dist (v.size - (dist + 1))
    ({ v with data := d, size := v.size - 1 }, dist)
  else (v, 0)

/-- `Resize(new_size)` (source lines 193–209). -/
def Resize (v : SimpleVector α) (new_size : Nat) : SimpleVector α :=
  if new_size ≤ v.size then { v with size := new_size }
  else if new_size < v.capacity then
    { v with data := fillN v.data v.size default (new_size - v.size), size := new_size }
  else
    let (tmp, v') := v.Realloc (capacity_multiplier * new_size)
    let d1 := copyN tmp 0 v'.data 0 v.size
    { v' with data := fillN d1 v.size default (new_size - v.size), size := new_size }

/-- `Reserve(new_capacity)` (source lines 212–217). -/
def Reserve (v : SimpleVector α) (new_capacity : Nat) : SimpleVector α :=
  if v.capacity < new_capacity then
    let (tmp, v') := v.Realloc new_capacity
    { v' with data := copyN tmp 0 v'.data 0 v.size }
  else v

/-- `swap` (source lines 220–224): exchanges buffer, size and capacity. -/
def swap (v other : SimpleVector α) : SimpleVector α × SimpleVector α :=
  ({ data := other.data, size := other.size, capacity := other.capacity },
   { data := v.data, size := v.size, capacity := v.capacity })

/-- `Clear` (source lines 270–272). -/
def Clear (v : SimpleVector α) : SimpleVector α := { v with size := 0 }

/-- Checked access `At(size_t)` (source lines 253–258): out-of-range indices
fail with `std::out_of_range` carrying the message below; otherwise the slot
is read exactly as `operator[]` does. -/
def At (v : SimpleVector α) (index : Nat) : Except String α :=
  if index ≥ v.size then
    Except.error "index out of range in SimpleVector::At"
  else Except.ok (v.data.getD index default)

end SimpleVector

/-- The element-wise range comparison `std::equal(first1, last1, first2,
last2)` (the four-iterator overload): true iff the two ranges have the same
length and agree element-wise. -/
def stdEqual {α : Type} [DecidableEq α] : List α → List α → Bool
  | [], [] => true
  | a :: as, b :: bs => a = b && stdEqual as bs
  | _, _ => false

/-- Free `operator==` (source lines 328–333), including the vacuous size
guard `lhs.GetSize() != lhs.GetSize()` exactly as written, followed by
`std::equal(lhs.begin(), lhs.end(), rhs.begin(), rhs.end())`. -/
def eqOp {α : Type} [Inhabited α] [DecidableEq α] (lhs rhs : SimpleVector α) : Bool :=
  if lhs.GetSize ≠ lhs.GetSize then false
  else stdEqual lhs.elems rhs.elems

/-! ## Lemmas about the copy/fill primitives -/

section CopyLemmas

variable {α : Type}

theorem setSlot_length (dst : List α) (i : Int) (v : α) :
    (setSlot dst i v).length = dst.length := by
  unfold setSlot; split <;> simp

theorem copyN_length [Inhabited α] (src : List α) (n : Nat) :
    ∀ (s d : Nat) (dst : List α), (copyN src s dst d n).length = dst.length := by
  induction n with
  | zero => intro s d dst; rfl
  | succ n ih => intro s d dst; rw [copyN, ih]; simp

theorem copyBackwardN_length [Inhabited α] (src : List α) (n : Nat) :
    ∀ (e : Nat) (dLast : Int) (dst : List α),
      (copyBackwardN src e dst dLast n).length = dst.length := by
  induction n with
  | zero => intro e dLast dst; rfl
  | succ n ih => intro e dLast dst; rw [copyBackwardN, ih, setSlot_length]

theorem fillN_length (v : α) (n : Nat) :
    ∀ (s : Nat) (dst : List α), (fillN dst s v n).length = dst.length := by
  induction n with
  | zero => intro s dst; rfl
  | succ n ih => intro s dst; rw [fillN, ih]; simp

theorem getD_default_eq [Inhabited α] (l : List α) (i : Nat) (h : i < l.length) :
    l.getD i default = l[i] := by
  simp [List.getD_eq_getElem?_getD, List.getElem?_eq_getElem h]

theorem take_set_succ (dst : List α) (d : Nat) (x : α) (h : d < dst.length) :
    (dst.set d x).take (d + 1) = dst.take d ++ [x] := by
  have hlen : d < (dst.take (d + 1)).length := by
    simp only [List.length_take]; omega
  rw [List.set_take, List.set_eq_take_cons_drop x hlen, List.take_take,
    List.drop_eq_nil_of_le (by simp)]
  have hmin : min d (d + 1) = d := by omega
  rw [hmin]

theorem take_set_of_le (dst : List α) (i j : Nat) (x : α) (h : j ≤ i) :
    (dst.set i x).take j = dst.take j := by
  rw [List.set_take, List.set_eq_of_length_le]
  simp only [List.length_take]
  omega

theorem drop_set_of_lt (dst : List α) (i j : Nat) (x : α) (h : i < j) :
    (dst.set i x).drop j = dst.drop j := by
  rw [List.drop_set, if_pos h]

theorem drop_set_self (dst : List α) (d : Nat) (x : α) (h : d < dst.length) :
    (dst.set d x).drop d = x :: dst.drop (d + 1) := by
  rw [List.drop_set, if_neg (by omega), Nat.sub_self,
    List.drop_eq_getElem_cons h]
  rfl

theorem take_succ_in_bounds (l : List α) (n : Nat) (h : n < l.length) :
    l.take (n + 1) = l.take n ++ [l[n]] := by
  rw [List.take_succ, List.getElem?_eq_getElem h]
  rfl

/-- `copyN` writes the source range `[s, s+n)` over the destination range
`[d, d+n)` and leaves the rest of the destination alone. -/
theorem copyN_eq [Inhabited α] (src : List α) :
    ∀ (n s d : Nat) (dst : List α), s + n ≤ src.length → d + n ≤ dst.length →
      copyN src s dst d n = dst.take d ++ (src.drop s).take n ++ dst.drop (d + n) := by
  intro n
  induction n with
  | zero =>
    intro s d dst _ _
    simp [copyN]
  | succ n ih =>
    intro s d dst hs hd
    have hdlen : d < dst.length := by omega
    have hslen : s < src.length := by omega
    rw [copyN, getD_default_eq src s hslen,
      ih (s + 1) (d + 1) _ (by omega) (by rw [List.length_set]; omega)]
    rw [take_set_succ dst d _ hdlen, drop_set_of_lt dst d (d + 1 + n) _ (by omega)]
    have harith : d + (n + 1) = d + 1 + n := by omega
    rw [harith, List.drop_eq_getElem_cons hslen, List.take_succ_cons]
    simp

/-- `copyBackwardN`, called with source range ending at `s + n` and
destination range ending at offset `d + n`, writes the source range
`[s, s+n)` over the destination range `[d, d+n)`, proceeding backwards. -/
theorem copyBackwardN_eq [Inhabited α] (src : List α) :
    ∀ (n s d : Nat) (dst : List α), s + n ≤ src.length → d + n ≤ dst.length →
      copyBackwardN src (s + n) dst ((d + n : Nat) : Int) n
        = dst.take d ++ (src.drop s).take n ++ dst.drop (d + n) := by
  intro n
  induction n with
  | zero =>
    intro s d dst _ _
    simp [copyBackwardN]
  | succ n ih =>
    intro s d dst hs hd
    have hsn : s + n < src.length := by omega
    have hdn : d + n < dst.length := by omega
    rw [copyBackwardN]
    have harg1 : s + (n + 1) - 1 = s + n := by omega
    have harg2 : ((d + (n + 1) : Nat) : Int) - 1 = ((d + n : Nat) : Int) := by omega
    rw [harg1, harg2]
    have harg3 : setSlot dst ((d + n : Nat) : Int) (src.getD (s + n) default)
        = dst.set (d + n) src[s + n] := by
      rw [getD_default_eq src (s + n) hsn]
      unfold setSlot
      rw [if_pos (by positivity)]
      congr 1
    rw [harg3]
    have hlen' : d + n ≤ (dst.set (d + n) src[s + n]).length := by
      rw [List.length_set]; omega
    rw [ih s d _ (by omega) hlen']
    rw [take_set_of_le dst (d + n) d _ (by omega),
      drop_set_self dst (d + n) _ hdn,
      take_succ_in_bounds (src.drop s) n
        (by rw [List.length_drop]; omega)]
    have harith : d + (n + 1) = d + n + 1 := by omega
    rw [harith]
    simp

/-- `fillN` writes `v` over the destination range `[s, s+n)`. -/
theorem fillN_eq (v : α) :
    ∀ (n s : Nat) (dst : List α), s + n ≤ dst.length →
      fillN dst s v n = dst.take s ++ List.replicate n v ++ dst.drop (s + n) := by
  intro n
  induction n with
  | zero =>
    intro s dst _
    simp [fillN]
  | succ n ih =>
    intro s dst hd
    have hslen : s < dst.length := by omega
    rw [fillN, ih (s + 1) _ (by rw [List.length_set]; omega)]
    rw [take_set_succ dst s v hslen, drop_set_of_lt dst s (s + 1 + n) v (by omega)]
    have : s + (n + 1) = s + 1 + n := by omega
    rw [this, List.replicate_succ]
    simp

end CopyLemmas

/-! ## Operation-level lemmas -/

namespace SimpleVector

variable {α : Type} [Inhabited α]

omit [Inhabited α] in
theorem elems_length (v : SimpleVector α) (h : WF v) : (elems v).length = v.size := by
  unfold elems
  rw [List.length_take]
  obtain ⟨h1, h2⟩ := h
  omega

theorem PushBackMove_eq (v : SimpleVector α) (x : α) :
    PushBackMove v x = PushBack v x := rfl

/-- The growth target of `Realloc(capacity_multiplier * capacity_)`:
1 when `capacity_ = 0`, else `2 * capacity_`. -/
theorem realloc_growth_cap (c : Nat) :
    (if capacity_multiplier * c = 0 then 1 else capacity_multiplier * c)
      = (if c = 0 then 1 else 2 * c) := by
  by_cases hc : c = 0 <;> simp [capacity_multiplier, hc]

theorem PushBack_spec (v : SimpleVector α) (x : α) (h : WF v) :
    elems (PushBack v x) = elems v ++ [x] ∧
    (PushBack v x).size = v.size + 1 ∧
    (PushBack v x).capacity = (if v.size < v.capacity then v.capacity
      else if v.capacity = 0 then 1 else 2 * v.capacity) ∧
    WF (PushBack v x) := by
  obtain ⟨hlen, hle⟩ := h
  by_cases hlt : v.size < v.capacity
  · rw [PushBack]
    simp only [if_pos hlt]
    refine ⟨?_, by trivial, by trivial, ?_, ?_⟩
    · show (v.data.set v.size x).take (v.size + 1) = v.data.take v.size ++ [x]
      exact take_set_succ v.data v.size x (by omega)
    · show (v.data.set v.size x).length = v.capacity
      rw [List.length_set, hlen]
    · show v.size + 1 ≤ v.capacity
      omega
  · have hsz : v.size = v.capacity := by omega
    rw [PushBack]
    simp only [if_neg hlt, Realloc]
    obtain ⟨nc, hncdef, hnc1, hnc2⟩ :
        ∃ nc, (if capacity_multiplier * v.capacity = 0 then 1
                else capacity_multiplier * v.capacity) = nc ∧ v.size + 1 ≤ nc ∧
              nc = (if v.capacity = 0 then 1 else 2 * v.capacity) :=
      ⟨_, rfl, by by_cases hc : v.capacity = 0 <;> simp [capacity_multiplier, hc] <;> omega,
        realloc_growth_cap v.capacity⟩
    rw [hncdef]
    have hcopy : copyN v.data 0 (List.replicate nc default) 0 v.size
        = v.data.take v.size ++ (List.replicate nc default).drop v.size := by
      have hcp := copyN_eq v.data v.size 0 0 (List.replicate nc default)
        (by omega) (by simp only [Nat.zero_add, List.length_replicate]; omega)
      simpa using hcp
    refine ⟨?_, by trivial, by exact hnc2, ?_, ?_⟩
    · show ((copyN v.data 0 (List.replicate nc default) 0 v.size).set v.size x).take (v.size + 1)
        = v.data.take v.size ++ [x]
      rw [take_set_succ _ v.size x (by rw [copyN_length]; simp only [List.length_replicate]; omega),
        hcopy,
        List.take_append_of_le_length (by simp only [List.length_take]; omega),
        List.take_take]
      congr 2
      omega
    · show ((copyN v.data 0 (List.replicate nc default) 0 v.size).set v.size x).length = nc
      rw [List.length_set, copyN_length, List.length_replicate]
    · show v.size + 1 ≤ nc
      exact hnc1

/-- The two `Insert` overloads run the same code when no reallocation is
needed (they differ only in the growth path's `copy_backward` call). -/
theorem Insert_inplace_eq (v : SimpleVector α) (dist : Nat) (x : α)
    (hlt : v.size < v.capacity) :
    Insert v dist x = InsertMove v dist x := by
  rw [Insert, InsertMove, if_pos hlt, if_pos hlt]

omit [Inhabited α] in
/-- Writing `x` at offset `dist` into a buffer of the form
`P1 ++ M ++ S`, where `P1` spans `[0, dist]`, yields
`(P1-head ++ x :: M) ++ S`. -/
theorem set_middle_shape (P1 M S base : List α) (x : α) (dist : Nat)
    (hP1take : P1.take dist = base) (hP1len : P1.length = dist + 1) :
    (P1 ++ M ++ S).set dist x = (base ++ x :: M) ++ S := by
  have hdL : dist < (P1 ++ M ++ S).length := by
    simp only [List.length_append]; omega
  have h1 : (P1 ++ M ++ S).take dist = base := by
    rw [List.take_append_of_le_length (by simp only [List.length_append]; omega),
      List.take_append_of_le_length (by omega), hP1take]
  have h2 : (P1 ++ M ++ S).drop (dist + 1) = M ++ S := by
    rw [List.append_assoc]
    exact List.drop_left' hP1len
  rw [List.set_eq_take_cons_drop x hdL, h1, h2]
  simp

/-- The move variant of `Insert` at offset `dist ≤ size` inserts `x` at
`dist`, shifting the tail right; size grows by one and capacity follows the
`PushBack` growth policy. -/
theorem InsertMove_spec (v : SimpleVector α) (dist : Nat) (x : α) (h : WF v)
    (hd : dist ≤ v.size) :
    elems (InsertMove v dist x).1
        = (elems v).take dist ++ [x] ++ (elems v).drop dist ∧
    (InsertMove v dist x).1.size = v.size + 1 ∧
    (InsertMove v dist x).2 = dist ∧
    (InsertMove v dist x).1.capacity = (if v.size < v.capacity then v.capacity
      else if v.capacity = 0 then 1 else 2 * v.capacity) := by
  obtain ⟨hlen, hle⟩ := h
  have htgt1 : (elems v).take dist = v.data.take dist := by
    rw [elems, List.take_take]
    congr 1
    omega
  have htgt2 : (elems v).drop dist = (v.data.drop dist).take (v.size - dist) := by
    rw [elems, List.drop_take]
  by_cases hlt : v.size < v.capacity
  · rw [InsertMove]
    simp only [if_pos hlt]
    have hcb := copyBackwardN_eq v.data (v.size - dist) dist (dist + 1) v.data
      (by omega) (by omega)
    rw [show dist + (v.size - dist) = v.size from by omega] at hcb
    rw [show ((dist + 1 + (v.size - dist) : Nat) : Int) = (v.size : Int) + 1 from by omega] at hcb
    rw [show dist + 1 + (v.size - dist) = v.size + 1 from by omega] at hcb
    refine ⟨?_, by trivial, by trivial, by trivial⟩
    show ((copyBackwardN v.data v.size v.data ((v.size : Int) + 1) (v.size - dist)).set dist x).take (v.size + 1)
        = (elems v).take dist ++ [x] ++ (elems v).drop dist
    have hshape := set_middle_shape (v.data.take (dist + 1))
      ((v.data.drop dist).take (v.size - dist)) (v.data.drop (v.size + 1))
      (v.data.take dist) x dist
      (by rw [List.take_take]; congr 1; omega)
      (by simp only [List.length_take]; omega)
    rw [hcb, hshape,
      List.take_left' (by simp only [List.length_append, List.length_take,
        List.length_cons, List.length_drop]; omega),
      htgt1, htgt2]
    simp
  · have hsz : v.size = v.capacity := by omega
    rw [InsertMove]
    simp only [if_neg hlt, Realloc]
    obtain ⟨nc, hncdef, hnc1, hnc2⟩ :
        ∃ nc, (if capacity_multiplier * v.capacity = 0 then 1
                else capacity_multiplier * v.capacity) = nc ∧ v.size + 1 ≤ nc ∧
              nc = (if v.capacity = 0 then 1 else 2 * v.capacity) :=
      ⟨_, rfl, by by_cases hc : v.capacity = 0 <;> simp [capacity_multiplier, hc] <;> omega,
        realloc_growth_cap v.capacity⟩
    rw [hncdef]
    have hd1 : copyN v.data 0 (List.replicate nc default) 0 dist
        = v.data.take dist ++ (List.replicate nc default).drop dist := by
      have hcp := copyN_eq v.data dist 0 0 (List.replicate nc default)
        (by omega) (by simp only [Nat.zero_add, List.length_replicate]; omega)
      simpa using hcp
    have hd1len : (copyN v.data 0 (List.replicate nc default) 0 dist).length = nc := by
      rw [copyN_length, List.length_replicate]
    have hcb := copyBackwardN_eq v.data (v.size - dist) dist (dist + 1)
      (copyN v.data 0 (List.replicate nc default) 0 dist)
      (by omega) (by rw [hd1len]; omega)
    rw [show dist + (v.size - dist) = v.size from by omega] at hcb
    rw [show ((dist + 1 + (v.size - dist) : Nat) : Int) = (v.size : Int) + 1 from by omega] at hcb
    rw [show dist + 1 + (v.size - dist) = v.size + 1 from by omega] at hcb
    refine ⟨?_, by trivial, by trivial, by exact hnc2⟩
    show ((copyBackwardN v.data v.size (copyN v.data 0 (List.replicate nc default) 0 dist) ((v.size : Int) + 1) (v.size - dist)).set dist x).take (v.size + 1)
        = (elems v).take dist ++ [x] ++ (elems v).drop dist
    have hp1 : ((copyN v.data 0 (List.replicate nc default) 0 dist).take (dist + 1)).take dist
        = v.data.take dist := by
      rw [List.take_take, show min dist (dist + 1) = dist from by omega, hd1,
        List.take_append_of_le_length (by simp only [List.length_take]; omega),
        List.take_take, show min dist dist = dist from by omega]
    have hshape := set_middle_shape
      ((copyN v.data 0 (List.replicate nc default) 0 dist).take (dist + 1))
      ((v.data.drop dist).take (v.size - dist))
      ((copyN v.data 0 (List.replicate nc default) 0 dist).drop (v.size + 1))
      (v.data.take dist) x dist hp1
      (by simp only [List.length_take, hd1len]; omega)
    rw [hcb, hshape,
      List.take_left' (by simp only [List.length_append, List.length_take,
        List.length_cons, List.length_drop]; omega),
      htgt1, htgt2]
    simp

theorem Erase_spec (v : SimpleVector α) (dist : Nat) (h : WF v) (hd : dist < v.size) :
    elems (Erase v dist).1 = (elems v).take dist ++ (elems v).drop (dist + 1) ∧
    (Erase v dist).1.size = v.size - 1 ∧
    (Erase v dist).1.capacity = v.capacity ∧
    (Erase v dist).2 = dist := by
  obtain ⟨hlen, hle⟩ := h
  rw [Erase]
  simp only [if_pos (by omega : v.size > 0)]
  refine ⟨?_, by trivial, by trivial, by trivial⟩
  show (copyN v.data (dist + 1) v.data dist (v.size - (dist + 1))).take (v.size - 1)
      = (elems v).take dist ++ (elems v).drop (dist + 1)
  have hcp := copyN_eq v.data (v.size - (dist + 1)) (dist + 1) dist v.data
    (by omega) (by omega)
  rw [show dist + (v.size - (dist + 1)) = v.size - 1 from by omega] at hcp
  rw [hcp]
  rw [List.take_left' (by simp only [List.length_append, List.length_take, List.length_drop]; omega)]
  rw [show (elems v).take dist = v.data.take dist from by rw [elems, List.take_take]; congr 1; omega]
  rw [elems, List.drop_take]

theorem Resize_spec (v : SimpleVector α) (new_size : Nat) (h : WF v) :
    (new_size ≤ v.size → Resize v new_size = { v with size := new_size }) ∧
    (v.size < new_size → new_size < v.capacity →
       elems (Resize v new_size) = elems v ++ List.replicate (new_size - v.size) default ∧
       (Resize v new_size).size = new_size ∧
       (Resize v new_size).capacity = v.capacity) ∧
    (v.size < new_size → v.capacity ≤ new_size →
       elems (Resize v new_size) = elems v ++ List.replicate (new_size - v.size) default ∧
       (Resize v new_size).size = new_size ∧
       (Resize v new_size).capacity = 2 * new_size) := by
  obtain ⟨hlen, hle⟩ := h
  refine ⟨?_, ?_, ?_⟩
  · intro hle2
    rw [Resize, if_pos hle2]
  · intro hgt hltc
    rw [Resize]
    simp only [if_neg (by omega : ¬ new_size ≤ v.size), if_pos hltc]
    refine ⟨?_, by trivial, by trivial⟩
    show (fillN v.data v.size default (new_size - v.size)).take new_size
        = elems v ++ List.replicate (new_size - v.size) default
    have hf := fillN_eq default (new_size - v.size) v.size v.data (by omega)
    rw [show v.size + (new_size - v.size) = new_size from by omega] at hf
    rw [hf]
    rw [List.take_left' (by simp only [List.length_append, List.length_take, List.length_replicate]; omega)]
    rfl
  · intro hgt hgec
    have hns1 : 1 ≤ new_size := by omega
    rw [Resize]
    simp only [if_neg (by omega : ¬ new_size ≤ v.size),
      if_neg (by omega : ¬ new_size < v.capacity), Realloc]
    have hncnz : ¬ capacity_multiplier * new_size = 0 := by
      simp only [capacity_multiplier]; omega
    simp only [if_neg hncnz]
    have h2ns : capacity_multiplier * new_size = 2 * new_size := rfl
    rw [h2ns]
    have hcp := copyN_eq v.data v.size 0 0 (List.replicate (2 * new_size) default)
      (by omega) (by simp only [Nat.zero_add, List.length_replicate]; omega)
    simp only [Nat.zero_add, List.drop_zero, List.take_zero, List.nil_append] at hcp
    refine ⟨?_, by trivial, by trivial⟩
    show (fillN (copyN v.data 0 (List.replicate (2 * new_size) default) 0 v.size) v.size default (new_size - v.size)).take new_size
        = elems v ++ List.replicate (new_size - v.size) default
    have hf := fillN_eq default (new_size - v.size) v.size
      (copyN v.data 0 (List.replicate (2 * new_size) default) 0 v.size)
      (by rw [copyN_length, List.length_replicate]; omega)
    rw [show v.size + (new_size - v.size) = new_size from by omega] at hf
    have hA : (copyN v.data 0 (List.replicate (2 * new_size) default) 0 v.size).take v.size
        = v.data.take v.size := by
      rw [hcp, List.take_append_of_le_length (by simp only [List.length_take]; omega),
        List.take_take, show min v.size v.size = v.size from by omega]
    rw [hf, hA,
      List.take_left' (by simp only [List.length_append, List.length_take, List.length_replicate]; omega)]
    rfl

theorem assignOp_spec (dst rhs : SimpleVector α) (h1 : WF dst) (h2 : WF rhs) :
    ((assignOp dst rhs false).capacity = dst.capacity ↔
       (dst.size > rhs.size ∨ dst.capacity ≥ rhs.capacity)) ∧
    (dst.size > rhs.size ∨ dst.capacity ≥ rhs.capacity →
       (assignOp dst rhs false).capacity = dst.capacity ∧
       (assignOp dst rhs false).data.drop rhs.size = dst.data.drop rhs.size) ∧
    (¬(dst.size > rhs.size ∨ dst.capacity ≥ rhs.capacity) →
       (assignOp dst rhs false).capacity = rhs.capacity) ∧
    (assignOp dst rhs false).size = rhs.size ∧
    elems (assignOp dst rhs false) = elems rhs ∧
    WF (assignOp dst rhs false) := by
  obtain ⟨hlen1, hle1⟩ := h1
  obtain ⟨hlen2, hle2⟩ := h2
  rw [assignOp]
  simp only [Bool.false_eq_true, if_false]
  by_cases hc : dst.size > rhs.size ∨ dst.capacity ≥ rhs.capacity
  · have hfit : rhs.size ≤ dst.capacity := by
      rcases hc with hc | hc <;> omega
    simp only [if_pos hc]
    have hcp : copyN rhs.data 0 dst.data 0 rhs.size
        = rhs.data.take rhs.size ++ dst.data.drop rhs.size := by
      have hcp0 := copyN_eq rhs.data rhs.size 0 0 dst.data (by omega) (by omega)
      simpa using hcp0
    refine ⟨by simp [hc], fun _ => ⟨by trivial, ?_⟩, fun hnc => absurd hc hnc, by trivial, ?_, ?_, ?_⟩
    · show (copyN rhs.data 0 dst.data 0 rhs.size).drop rhs.size = dst.data.drop rhs.size
      rw [hcp]
      exact List.drop_left' (by simp only [List.length_take]; omega)
    · show (copyN rhs.data 0 dst.data 0 rhs.size).take rhs.size = elems rhs
      rw [hcp, List.take_append_of_le_length (by simp only [List.length_take]; omega),
        List.take_take, show min rhs.size rhs.size = rhs.size from by omega]
      rfl
    · show (copyN rhs.data 0 dst.data 0 rhs.size).length = dst.capacity
      rw [copyN_length, hlen1]
    · show rhs.size ≤ dst.capacity
      exact hfit
  · have hgt : dst.capacity < rhs.capacity := by omega
    simp only [if_neg hc, Realloc]
    rw [if_neg (by omega : ¬ rhs.capacity = 0)]
    have hcp : copyN rhs.data 0 (List.replicate rhs.capacity default) 0 rhs.size
        = rhs.data.take rhs.size ++ (List.replicate rhs.capacity default).drop rhs.size := by
      have hcp0 := copyN_eq rhs.data rhs.size 0 0 (List.replicate rhs.capacity default)
        (by omega) (by simp only [Nat.zero_add, List.length_replicate]; omega)
      simpa using hcp0
    refine ⟨by constructor <;> intro hx <;> [omega; exact absurd hx hc], fun hx => absurd hx hc,
      fun _ => by trivial, by trivial, ?_, ?_, ?_⟩
    · show (copyN rhs.data 0 (List.replicate rhs.capacity default) 0 rhs.size).take rhs.size = elems rhs
      rw [hcp, List.take_append_of_le_length (by simp only [List.length_take]; omega),
        List.take_take, show min rhs.size rhs.size = rhs.size from by omega]
      rfl
    · show (copyN rhs.data 0 (List.replicate rhs.capacity default) 0 rhs.size).length = rhs.capacity
      rw [copyN_length, List.length_replicate]
    · show rhs.size ≤ rhs.capacity
      exact hle2

theorem moveAssignOp_src_state (dst rhs : SimpleVector α) :
    (moveAssignOp dst rhs false).2 = { rhs with size := 0 } := by
  rw [moveAssignOp]
  simp only [Bool.false_eq_true, if_false]
  split <;> rfl

theorem WF_moveAssignOp (dst rhs : SimpleVector α) (h1 : WF dst) (h2 : WF rhs) :
    WF (moveAssignOp dst rhs false).1 ∧ WF (moveAssignOp dst rhs false).2 := by
  obtain ⟨hlen1, hle1⟩ := h1
  obtain ⟨hlen2, hle2⟩ := h2
  rw [moveAssignOp]
  simp only [Bool.false_eq_true, if_false]
  by_cases hc : dst.size > rhs.size ∨ dst.capacity ≥ rhs.capacity
  · have hfit : rhs.size ≤ dst.capacity := by
      rcases hc with hc | hc <;> omega
    simp only [if_pos hc]
    exact ⟨⟨by rw [copyN_length]; exact hlen1, hfit⟩, ⟨hlen2, Nat.zero_le _⟩⟩
  · have hgt : dst.capacity < rhs.capacity := by omega
    simp only [if_neg hc, Realloc]
    rw [if_neg (by omega : ¬ rhs.capacity = 0)]
    exact ⟨⟨by rw [copyN_length, List.length_replicate], hle2⟩, ⟨hlen2, Nat.zero_le _⟩⟩

theorem WF_InsertMove (v : SimpleVector α) (dist : Nat) (x : α) (h : WF v) :
    WF (InsertMove v dist x).1 := by
  obtain ⟨hlen, hle⟩ := h
  rw [InsertMove]
  by_cases hlt : v.size < v.capacity
  · simp only [if_pos hlt]
    exact ⟨by rw [List.length_set, copyBackwardN_length, hlen], by show v.size + 1 ≤ v.capacity; omega⟩
  · simp only [if_neg hlt, Realloc]
    constructor
    · show ((copyBackwardN v.data v.size (copyN v.data 0 _ 0 dist) _ (v.size - dist)).set dist x).length = _
      rw [List.length_set, copyBackwardN_length, copyN_length, List.length_replicate]
    · show v.size + 1 ≤ _
      simp only [capacity_multiplier]
      by_cases hcz : v.capacity = 0
      · rw [if_pos (by omega)]; omega
      · rw [if_neg (by omega)]; omega

theorem WF_Insert (v : SimpleVector α) (dist : Nat) (x : α) (h : WF v) :
    WF (Insert v dist x).1 := by
  obtain ⟨hlen, hle⟩ := h
  rw [Insert]
  by_cases hlt : v.size < v.capacity
  · simp only [if_pos hlt]
    exact ⟨by rw [List.length_set, copyBackwardN_length, hlen], by show v.size + 1 ≤ v.capacity; omega⟩
  · simp only [if_neg hlt, Realloc]
    constructor
    · show ((copyBackwardN v.data v.size (copyN v.data 0 _ 0 dist) _ (v.size - dist)).set dist x).length = _
      rw [List.length_set, copyBackwardN_length, copyN_length, List.length_replicate]
    · show v.size + 1 ≤ _
      simp only [capacity_multiplier]
      by_cases hcz : v.capacity = 0
      · rw [if_pos (by omega)]; omega
      · rw [if_neg (by omega)]; omega

theorem WF_Erase (v : SimpleVector α) (dist : Nat) (h : WF v) :
    WF (Erase v dist).1 := by
  obtain ⟨hlen, hle⟩ := h
  rw [Erase]
  by_cases hpos : v.size > 0
  · simp only [if_pos hpos]
    exact ⟨by rw [copyN_length]; exact hlen, by show v.size - 1 ≤ v.capacity; omega⟩
  · simp only [if_neg hpos]
    exact ⟨hlen, hle⟩

theorem WF_Resize (v : SimpleVector α) (new_size : Nat) (h : WF v) :
    WF (Resize v new_size) := by
  obtain ⟨hlen, hle⟩ := h
  rw [Resize]
  by_cases h1 : new_size ≤ v.size
  · simp only [if_pos h1]
    exact ⟨hlen, by show new_size ≤ v.capacity; omega⟩
  · simp only [if_neg h1]
    by_cases h2 : new_size < v.capacity
    · simp only [if_pos h2]
      exact ⟨by rw [fillN_length]; exact hlen, by show new_size ≤ v.capacity; omega⟩
    · simp only [if_neg h2, Realloc]
      constructor
      · show (fillN (copyN v.data 0 _ 0 v.size) v.size default (new_size - v.size)).length = _
        rw [fillN_length, copyN_length, List.length_replicate]
      · show new_size ≤ _
        simp only [capacity_multiplier]
        rw [if_neg (by omega)]
        omega

theorem WF_Reserve (v : SimpleVector α) (new_capacity : Nat) (h : WF v) :
    WF (Reserve v new_capacity) := by
  obtain ⟨hlen, hle⟩ := h
  rw [Reserve]
  by_cases h1 : v.capacity < new_capacity
  · simp only [if_pos h1, Realloc]
    rw [if_neg (by omega : ¬ new_capacity = 0)]
    exact ⟨by rw [copyN_length, List.length_replicate], by show v.size ≤ new_capacity; omega⟩
  · simp only [if_neg h1]
    exact ⟨hlen, hle⟩

omit [Inhabited α] in
theorem WF_mkDefault : WF (mkDefault : SimpleVector α) := ⟨rfl, Nat.le_refl 0⟩

theorem WF_mkSized (n : Nat) : WF (mkSized n : SimpleVector α) :=
  ⟨by rw [mkSized]; show (fillN _ 0 default n).length = n
      rw [fillN_length, List.length_replicate],
   Nat.le_refl n⟩

theorem WF_mkReserved (n : Nat) : WF (mkReserved n : SimpleVector α) :=
  ⟨by rw [mkReserved]; exact List.length_replicate n default, Nat.zero_le n⟩

theorem WF_mkFilled (n : Nat) (x : α) : WF (mkFilled n x) :=
  ⟨by rw [mkFilled]; show (fillN _ 0 x n).length = n
      rw [fillN_length, List.length_replicate],
   Nat.le_refl n⟩

theorem WF_mkOfList (l : List α) : WF (mkOfList l) :=
  ⟨by rw [mkOfList]; show (copyN l 0 _ 0 l.length).length = l.length
      rw [copyN_length, List.length_replicate],
   Nat.le_refl _⟩

theorem WF_copyCtor (other : SimpleVector α) (h : WF other) : WF (copyCtor other) :=
  ⟨by rw [copyCtor]; show (copyN other.data 0 _ 0 other.size).length = other.capacity
      rw [copyN_length, List.length_replicate],
   h.2⟩

omit [Inhabited α] in
theorem WF_moveCtor (other : SimpleVector α) (h : WF other) :
    WF (moveCtor other).1 ∧ WF (moveCtor other).2 :=
  ⟨⟨h.1, h.2⟩, ⟨rfl, Nat.le_refl 0⟩⟩

omit [Inhabited α] in
theorem WF_PopBack (v : SimpleVector α) (h : WF v) : WF (PopBack v) := by
  obtain ⟨hlen, hle⟩ := h
  rw [PopBack]
  split
  · exact ⟨hlen, by show v.size - 1 ≤ v.capacity; omega⟩
  · exact ⟨hlen, hle⟩

omit [Inhabited α] in
theorem WF_Clear (v : SimpleVector α) (h : WF v) : WF (Clear v) :=
  ⟨h.1, Nat.zero_le _⟩

omit [Inhabited α] in
theorem WF_swap (v w : SimpleVector α) (h1 : WF v) (h2 : WF w) :
    WF (swap v w).1 ∧ WF (swap v w).2 :=
  ⟨⟨h2.1, h2.2⟩, ⟨h1.1, h1.2⟩⟩

theorem WF_assignOp (dst rhs : SimpleVector α) (b : Bool) (h1 : WF dst) (h2 : WF rhs) :
    WF (assignOp dst rhs b) := by
  cases b
  · exact (assignOp_spec dst rhs h1 h2).2.2.2.2.2
  · rw [assignOp, if_pos rfl]
    exact h1

theorem Insert_end_fst (v : SimpleVector α) (x : α) :
    (Insert v v.size x).1 = PushBack v x := by
  rw [Insert, PushBack]
  by_cases hlt : v.size < v.capacity
  · simp only [if_pos hlt, Nat.sub_self, copyBackwardN]
  · simp only [if_neg hlt, Realloc, Nat.sub_self, copyBackwardN]

theorem InsertMove_end_fst (v : SimpleVector α) (x : α) :
    (InsertMove v v.size x).1 = PushBackMove v x := by
  rw [InsertMove, PushBackMove]
  by_cases hlt : v.size < v.capacity
  · simp only [if_pos hlt, Nat.sub_self, copyBackwardN]
  · simp only [if_neg hlt, Realloc, Nat.sub_self, copyBackwardN]

end SimpleVector

theorem stdEqual_iff {β : Type} [DecidableEq β] :
    ∀ (a b : List β), stdEqual a b = true ↔ a = b
  | [], [] => by simp [stdEqual]
  | [], _ :: _ => by simp [stdEqual]
  | _ :: _, [] => by simp [stdEqual]
  | a :: as, b :: bs => by
    simp [stdEqual, stdEqual_iff as bs]

theorem eqOp_iff [Inhabited α] [DecidableEq α] (lhs rhs : SimpleVector α)
    (h1 : lhs.WF) (h2 : rhs.WF) :
    eqOp lhs rhs = true ↔ (lhs.GetSize = rhs.GetSize ∧ lhs.elems = rhs.elems) := by
  rw [eqOp, if_neg (by simp)]
  rw [stdEqual_iff]
  constructor
  · intro he
    refine ⟨?_, he⟩
    have := congrArg List.length he
    rw [SimpleVector.elems_length lhs h1, SimpleVector.elems_length rhs h2] at this
    exact this
  · intro ⟨_, he⟩
    exact he

/-! ## Claims -/

open SimpleVector

/-- C1: the claim states that both `Insert` overloads, including on the
growth path (`size == capacity`), shift the tail right, write the value at
the offset, increment the size and return an iterator to the inserted
element — e.g. inserting at `begin()` of a full `[1, 2, 3]` yields
`[0, 1, 2, 3]`.  The copy overload violates this: its growth path passes
`data_.Get() + 1` instead of `data_.Get() + size_ + 1` as the destination of
`copy_backward`, so the shifted elements are written before the start of the
live range (out of bounds in C++) and slots 1..3 of the new buffer never
receive the old elements.  This theorem evaluates the embedded code at that
failing input: the copy overload produces live elements `[0, 0, 0, 0]`
instead of `[0, 1, 2, 3]`, while the move overload — the intended behaviour —
produces `[0, 1, 2, 3]`. -/
theorem C1_insert_copy_growth_bug_eval :
    Insert (⟨[1, 2, 3], 3, 3⟩ : SimpleVector Int) 0 0
        = (⟨[0, 0, 0, 0, 0, 0], 4, 6⟩, 0) ∧
    elems (Insert (⟨[1, 2, 3], 3, 3⟩ : SimpleVector Int) 0 0).1 = [0, 0, 0, 0] ∧
    elems (Insert (⟨[1, 2, 3], 3, 3⟩ : SimpleVector Int) 0 0).1 ≠ [0, 1, 2, 3] ∧
    InsertMove (⟨[1, 2, 3], 3, 3⟩ : SimpleVector Int) 0 0
        = (⟨[0, 1, 2, 3, 0, 0], 4, 6⟩, 0) := by
  refine ⟨by decide, by decide, by decide, by decide⟩

/-- C2 counterexample: the claim says `Resize(new_size)` with
`size < new_size ≤ capacity` leaves the capacity unchanged and reallocates
only when `new_size > capacity`.  At the boundary `new_size = capacity` the
code takes the reallocation branch (`Resize` keeps the buffer only when
`new_size < capacity_`, strictly): resizing a size-1, capacity-2 vector to 2
yields capacity 4, not 2. -/
theorem C2_resize_boundary_counterexample :
    (Resize (⟨[5, 0], 1, 2⟩ : SimpleVector Int) 2).capacity = 4 ∧
    ¬ (Resize (⟨[5, 0], 1, 2⟩ : SimpleVector Int) 2).capacity = 2 := by
  exact ⟨by decide, by decide⟩

/-- C2 (amended): for `size < new_size < capacity` (strictly), `Resize` sets
slots `[size, new_size)` to the default value, sets `size = new_size` and
leaves the capacity unchanged; when `new_size > size` and `new_size ≥
capacity` it reallocates to capacity exactly `2 × new_size`. -/
theorem C2_resize_amended {α : Type} [Inhabited α] (v : SimpleVector α)
    (new_size : Nat) (h : v.WF) :
    (v.size < new_size → new_size < v.capacity →
       (v.Resize new_size).capacity = v.capacity ∧
       (v.Resize new_size).size = new_size ∧
       (v.Resize new_size).elems = v.elems ++ List.replicate (new_size - v.size) default) ∧
    (v.size < new_size → v.capacity ≤ new_size →
       (v.Resize new_size).capacity = 2 * new_size ∧
       (v.Resize new_size).size = new_size ∧
       (v.Resize new_size).elems = v.elems ++ List.replicate (new_size - v.size) default) := by
  obtain ⟨-, h2, h3⟩ := Resize_spec v new_size h
  exact ⟨fun ha hb => ⟨(h2 ha hb).2.2, (h2 ha hb).2.1, (h2 ha hb).1⟩,
         fun ha hb => ⟨(h3 ha hb).2.2, (h3 ha hb).2.1, (h3 ha hb).1⟩⟩

/-- C2 witness: the amended claim applied at concrete inputs — resizing a
size-1, capacity-3 vector to 2 keeps capacity 3 and default-fills slot 1;
resizing a size-1, capacity-2 vector to 2 reallocates to capacity 4. -/
theorem C2_resize_amended_witness :
    ((Resize (⟨[5, 0, 0], 1, 3⟩ : SimpleVector Int) 2).capacity = 3 ∧
     (Resize (⟨[5, 0, 0], 1, 3⟩ : SimpleVector Int) 2).elems = [5, 0]) ∧
    (Resize (⟨[5, 0], 1, 2⟩ : SimpleVector Int) 2).capacity = 4 := by
  refine ⟨⟨?_, ?_⟩, ?_⟩
  · exact ((C2_resize_amended (⟨[5, 0, 0], 1, 3⟩ : SimpleVector Int) 2
      ⟨by decide, by decide⟩).1 (by decide) (by decide)).1
  · exact (((C2_resize_amended (⟨[5, 0, 0], 1, 3⟩ : SimpleVector Int) 2
      ⟨by decide, by decide⟩).1 (by decide) (by decide)).2.2).trans (by decide)
  · exact ((C2_resize_amended (⟨[5, 0], 1, 2⟩ : SimpleVector Int) 2
      ⟨by decide, by decide⟩).2 (by decide) (by decide)).1

/-- C3: `operator==` returns true iff the two containers have the same length
and are element-wise equal in order; in particular it returns false whenever
the lengths differ — the explicit size guard compares `lhs` with itself, but
the four-iterator `std::equal` call receives both end iterators and catches
the length mismatch. -/
theorem C3_operator_eq_iff {α : Type} [Inhabited α] [DecidableEq α]
    (lhs rhs : SimpleVector α) (h1 : lhs.WF) (h2 : rhs.WF) :
    (eqOp lhs rhs = true ↔ (lhs.GetSize = rhs.GetSize ∧ lhs.elems = rhs.elems)) ∧
    (lhs.GetSize ≠ rhs.GetSize → eqOp lhs rhs = false) := by
  have hiff := eqOp_iff lhs rhs h1 h2
  refine ⟨hiff, fun hne => ?_⟩
  cases heq : eqOp lhs rhs
  · rfl
  · exact absurd (hiff.mp heq).1 hne

/-- C3 witness: `[1, 2] == [1, 2, 3]` is false (length mismatch), by the
claim's theorem applied at that pair. -/
theorem C3_operator_eq_iff_witness :
    eqOp (⟨[1, 2], 2, 2⟩ : SimpleVector Int) (⟨[1, 2, 3], 3, 3⟩ : SimpleVector Int)
      = false := by
  exact (C3_operator_eq_iff (⟨[1, 2], 2, 2⟩ : SimpleVector Int)
    (⟨[1, 2, 3], 3, 3⟩ : SimpleVector Int)
    ⟨by decide, by decide⟩ ⟨by decide, by decide⟩).2 (by decide)

/-- C4: copy assignment (distinct objects, `isSelf = false`) reuses the
destination buffer — capacity unchanged, slots from `source.size` on
untouched — exactly when `dst.size > src.size ∨ dst.capacity ≥ src.capacity`;
otherwise it reallocates to exactly the source's capacity.  In all cases the
destination ends with the source's size and elements in order.
Self-assignment (`isSelf = true`, the `this != &rhs` guard) is a no-op. -/
theorem C4_copy_assignment_spec {α : Type} [Inhabited α]
    (dst rhs : SimpleVector α) (h1 : dst.WF) (h2 : rhs.WF) :
    ((assignOp dst rhs false).capacity = dst.capacity ↔
        (dst.size > rhs.size ∨ dst.capacity ≥ rhs.capacity)) ∧
    (dst.size > rhs.size ∨ dst.capacity ≥ rhs.capacity →
        (assignOp dst rhs false).data.drop rhs.size = dst.data.drop rhs.size) ∧
    (¬ (dst.size > rhs.size ∨ dst.capacity ≥ rhs.capacity) →
        (assignOp dst rhs false).capacity = rhs.capacity) ∧
    (assignOp dst rhs false).size = rhs.size ∧
    (assignOp dst rhs false).elems = rhs.elems ∧
    assignOp dst dst true = dst := by
  obtain ⟨ha, hb, hc, hd, he, -⟩ := assignOp_spec dst rhs h1 h2
  exact ⟨ha, fun hx => (hb hx).2, hc, hd, he, rfl⟩

/-- C4 witness: assigning `[1, 2, 3]` (capacity 3) into a size-1, capacity-5
destination reuses the buffer (capacity stays 5) and copies the elements;
assigning it into a size-1, capacity-1 destination reallocates to exactly
capacity 3. -/
theorem C4_copy_assignment_spec_witness :
    ((assignOp (⟨[9, 0, 0, 0, 0], 1, 5⟩ : SimpleVector Int) ⟨[1, 2, 3], 3, 3⟩ false).capacity = 5 ∧
     (assignOp (⟨[9, 0, 0, 0, 0], 1, 5⟩ : SimpleVector Int) ⟨[1, 2, 3], 3, 3⟩ false).elems = [1, 2, 3]) ∧
    (assignOp (⟨[9], 1, 1⟩ : SimpleVector Int) ⟨[1, 2, 3], 3, 3⟩ false).capacity = 3 := by
  have h1 := C4_copy_assignment_spec (⟨[9, 0, 0, 0, 0], 1, 5⟩ : SimpleVector Int)
    (⟨[1, 2, 3], 3, 3⟩ : SimpleVector Int) ⟨by decide, by decide⟩ ⟨by decide, by decide⟩
  have h2 := C4_copy_assignment_spec (⟨[9], 1, 1⟩ : SimpleVector Int)
    (⟨[1, 2, 3], 3, 3⟩ : SimpleVector Int) ⟨by decide, by decide⟩ ⟨by decide, by decide⟩
  exact ⟨⟨h1.1.mpr (Or.inr (by decide)), (h1.2.2.2.2.1).trans (by decide)⟩,
         h2.2.2.1 (by decide)⟩

/-- C5: `PushBack` (copy and move overloads behave identically in the value
model) appends the item after the existing elements and increments the size;
the capacity is unchanged when `size < capacity`, while a full vector grows
to exactly 1 when its capacity was 0 and to exactly twice its capacity
otherwise. -/
theorem C5_pushback_spec {α : Type} [Inhabited α] (v : SimpleVector α) (x : α)
    (h : v.WF) :
    (v.PushBack x).size = v.size + 1 ∧
    (v.PushBack x).elems = v.elems ++ [x] ∧
    (v.size < v.capacity → (v.PushBack x).capacity = v.capacity) ∧
    (v.size = v.capacity →
       (v.PushBack x).capacity = (if v.capacity = 0 then 1 else 2 * v.capacity)) ∧
    v.PushBackMove x = v.PushBack x := by
  obtain ⟨he, hs, hc, -⟩ := PushBack_spec v x h
  exact ⟨hs, he, fun hlt => by rw [hc, if_pos hlt],
    fun hsz => by rw [hc, if_neg (by omega)], PushBackMove_eq v x⟩

/-- C5 witness: pushing onto an empty capacity-0 vector yields size 1 and
capacity exactly 1; pushing onto a full size-2, capacity-2 vector yields
elements `[1, 2, 7]` and capacity exactly 4. -/
theorem C5_pushback_spec_witness :
    ((PushBack (⟨[], 0, 0⟩ : SimpleVector Int) 7).size = 1 ∧
     (PushBack (⟨[], 0, 0⟩ : SimpleVector Int) 7).capacity = 1) ∧
    ((PushBack (⟨[1, 2], 2, 2⟩ : SimpleVector Int) 7).elems = [1, 2, 7] ∧
     (PushBack (⟨[1, 2], 2, 2⟩ : SimpleVector Int) 7).capacity = 4) := by
  have h1 := C5_pushback_spec (⟨[], 0, 0⟩ : SimpleVector Int) 7 ⟨by decide, by decide⟩
  have h2 := C5_pushback_spec (⟨[1, 2], 2, 2⟩ : SimpleVector Int) 7 ⟨by decide, by decide⟩
  exact ⟨⟨h1.1, (h1.2.2.2.1 (by decide)).trans (by decide)⟩,
         ⟨(h2.2.1).trans (by decide), (h2.2.2.2.1 (by decide)).trans (by decide)⟩⟩

/-- C6: `Erase` on an empty vector is a no-op returning `begin()` (offset 0);
on a valid position of a non-empty vector it removes the element at the
offset by shifting the following elements one slot left, decrements the size,
leaves the capacity unchanged and returns the same offset (which now holds
the element that followed the erased one, or is `end()` when the last element
was erased). -/
theorem C6_erase_spec {α : Type} [Inhabited α] (v : SimpleVector α) (dist : Nat)
    (h : v.WF) :
    (v.size = 0 → v.Erase dist = (v, 0)) ∧
    (dist < v.size →
       (v.Erase dist).1.elems = v.elems.take dist ++ v.elems.drop (dist + 1) ∧
       (v.Erase dist).1.size = v.size - 1 ∧
       (v.Erase dist).1.capacity = v.capacity ∧
       (v.Erase dist).2 = dist) := by
  refine ⟨fun hz => ?_, fun hd => Erase_spec v dist h hd⟩
  rw [Erase, if_neg (by omega)]

/-- C6 witness: erasing the second element of `[1, 2, 3]` yields elements
`[1, 3]` with the returned offset 1 (now holding the `3`); erasing from an
empty vector is a no-op returning offset 0. -/
theorem C6_erase_spec_witness :
    ((Erase (⟨[1, 2, 3], 3, 3⟩ : SimpleVector Int) 1).1.elems = [1, 3] ∧
     (Erase (⟨[1, 2, 3], 3, 3⟩ : SimpleVector Int) 1).2 = 1) ∧
    Erase (⟨[], 0, 0⟩ : SimpleVector Int) 0 = (⟨[], 0, 0⟩, 0) := by
  have h1 := C6_erase_spec (⟨[1, 2, 3], 3, 3⟩ : SimpleVector Int) 1 ⟨by decide, by decide⟩
  have h2 := C6_erase_spec (⟨[], 0, 0⟩ : SimpleVector Int) 0 ⟨by decide, by decide⟩
  exact ⟨⟨((h1.2 (by decide)).1).trans (by decide), (h1.2 (by decide)).2.2.2⟩,
         h2.1 (by decide)⟩

/-- C7: `At(index)` fails with an out-of-range error carrying the source's
message exactly when `index ≥ size`, and otherwise returns the same element
as the unchecked `operator[]` (`getOp`); `At` is an observer and does not
modify the vector. -/
theorem C7_at_spec {α : Type} [Inhabited α] (v : SimpleVector α) (index : Nat) :
    (index ≥ v.size →
       v.At index = Except.error "index out of range in SimpleVector::At") ∧
    (index < v.size → v.At index = Except.ok (v.getOp index)) := by
  constructor
  · intro hge
    rw [At, if_pos hge]
  · intro hlt
    rw [At, if_neg (by omega)]
    rfl

/-- C7 witness: on the one-element vector `[7]`, `At 5` (and `At 0` on the
empty vector) fail with the out-of-range error while `At 0` returns `7`, by
the claim's theorem applied at those inputs. -/
theorem C7_at_spec_witness :
    At (⟨[7], 1, 1⟩ : SimpleVector Int) 5
        = Except.error "index out of range in SimpleVector::At" ∧
    At (⟨[], 0, 0⟩ : SimpleVector Int) 0
        = Except.error "index out of range in SimpleVector::At" ∧
    At (⟨[7], 1, 1⟩ : SimpleVector Int) 0 = Except.ok 7 := by
  exact ⟨(C7_at_spec (⟨[7], 1, 1⟩ : SimpleVector Int) 5).1 (by decide),
         (C7_at_spec (⟨[], 0, 0⟩ : SimpleVector Int) 0).1 (by decide),
         ((C7_at_spec (⟨[7], 1, 1⟩ : SimpleVector Int) 0).2 (by decide)).trans rfl⟩

/-- C8: the representation invariant `size ≤ capacity` (with the buffer
holding exactly `capacity` slots, so the live range `[0, size)` is fully
backed) holds for every constructor and is preserved by every operation:
`PushBack`, `Insert`, `PopBack`, `Erase`, `Resize`, `Reserve`, `Clear`,
`swap`, copy/move construction and copy/move assignment. -/
theorem C8_size_capacity_invariant :
    ∀ (α : Type) [Inhabited α], ∀ (v w : SimpleVector α) (n i : Nat) (x : α)
      (l : List α) (b : Bool),
      WF (mkDefault : SimpleVector α) ∧
      WF (mkSized n : SimpleVector α) ∧
      WF (mkReserved n : SimpleVector α) ∧
      WF (mkFilled n x) ∧
      WF (mkOfList l) ∧
      (v.WF →
        WF v.copyCtor ∧ WF (moveCtor v).1 ∧ WF (moveCtor v).2 ∧
        WF (v.PushBack x) ∧ WF (v.PushBackMove x) ∧
        WF (v.Insert i x).1 ∧ WF (v.InsertMove i x).1 ∧
        WF v.PopBack ∧ WF (v.Erase i).1 ∧ WF (v.Resize n) ∧ WF (v.Reserve n) ∧
        WF v.Clear ∧ v.elems.length = v.size) ∧
      (v.WF → w.WF →
        WF (v.swap w).1 ∧ WF (v.swap w).2 ∧
        WF (assignOp v w b) ∧
        WF (moveAssignOp v w false).1 ∧ WF (moveAssignOp v w false).2) := by
  intro α _ v w n i x l b
  refine ⟨WF_mkDefault, WF_mkSized n, WF_mkReserved n, WF_mkFilled n x, WF_mkOfList l,
    fun hv => ⟨WF_copyCtor v hv, (WF_moveCtor v hv).1, (WF_moveCtor v hv).2,
      (PushBack_spec v x hv).2.2.2, by rw [PushBackMove_eq]; exact (PushBack_spec v x hv).2.2.2,
      WF_Insert v i x hv, WF_InsertMove v i x hv,
      WF_PopBack v hv, WF_Erase v i hv, WF_Resize v n hv, WF_Reserve v n hv,
      WF_Clear v hv, elems_length v hv⟩,
    fun hv hw => ⟨(WF_swap v w hv hw).1, (WF_swap v w hv hw).2,
      WF_assignOp v w b hv hw,
      (WF_moveAssignOp v w hv hw).1, (WF_moveAssignOp v w hv hw).2⟩⟩

/-- C8 witness: the invariant theorem applied at concrete vectors — pushing
onto a full `[1, 2]` and erasing from `[1, 2, 3]` both preserve
well-formedness. -/
theorem C8_size_capacity_invariant_witness :
    WF (PushBack (⟨[1, 2], 2, 2⟩ : SimpleVector Int) 3) ∧
    WF (Erase (⟨[1, 2, 3], 3, 3⟩ : SimpleVector Int) 1).1 := by
  have h1 := (C8_size_capacity_invariant Int ⟨[1, 2], 2, 2⟩ ⟨[], 0, 0⟩ 0 0 3 [] false).2.2.2.2.2.1
    ⟨by decide, by decide⟩
  have h2 := (C8_size_capacity_invariant Int ⟨[1, 2, 3], 3, 3⟩ ⟨[], 0, 0⟩ 0 1 0 [] false).2.2.2.2.2.1
    ⟨by decide, by decide⟩
  exact ⟨h1.2.2.2.1, h2.2.2.2.2.2.2.2.2.1⟩

/-- C9: `Insert` at `end()` (offset `size`) produces the same elements, size
and capacity as `PushBack`, for both the copy and the move overloads, on both
the in-place and the growth paths (the shifted range is empty, so the two
code paths coincide exactly). -/
theorem C9_insert_at_end_eq_pushback {α : Type} [Inhabited α]
    (v : SimpleVector α) (x : α) :
    (v.Insert v.size x).1.elems = (v.PushBack x).elems ∧
    (v.Insert v.size x).1.size = (v.PushBack x).size ∧
    (v.Insert v.size x).1.capacity = (v.PushBack x).capacity ∧
    (v.InsertMove v.size x).1.elems = (v.PushBackMove x).elems ∧
    (v.InsertMove v.size x).1.size = (v.PushBackMove x).size ∧
    (v.InsertMove v.size x).1.capacity = (v.PushBackMove x).capacity := by
  rw [Insert_end_fst, InsertMove_end_fst]
  exact ⟨rfl, rfl, rfl, rfl, rfl, rfl⟩

/-- C10: move assignment (distinct objects) leaves the source with size 0 but
its capacity — and its buffer — unchanged, on both the buffer-reuse and the
reallocation path (the source's buffer is never transferred; elements are
moved out individually), in contrast to move construction, which leaves the
source with size 0 and capacity 0 (its buffer is stolen). -/
theorem C10_move_assignment_source {α : Type} [Inhabited α]
    (dst rhs : SimpleVector α) :
    (moveAssignOp dst rhs false).2.size = 0 ∧
    (moveAssignOp dst rhs false).2.capacity = rhs.capacity ∧
    (moveAssignOp dst rhs false).2.data = rhs.data ∧
    (moveCtor rhs).2.size = 0 ∧
    (moveCtor rhs).2.capacity = 0 := by
  rw [moveAssignOp_src_state]
  exact ⟨rfl, rfl, rfl, rfl, rfl⟩

end SpecSimpleVector
